import Mathlib

/-!
Verification of the PDF insight pipeline
(structural segmentation, relevance ranking, sub-section refinement,
pipeline orchestration) against its natural-language specification.

Scores are modelled over `ℚ`; the external cosine-similarity routine is an
abstract parameter `sim`, and the external sentence-embedding model an
abstract parameter `encode`.
-/

namespace Insight

/-- An embedding vector (dense float vector), modelled over `ℚ`. -/
abbrev Emb := List ℚ

/-- Python `str.split()`: split on whitespace, dropping empty pieces. -/
def pyWords (s : String) : List String :=
  ((s.toList.splitOnP fun c => c.isWhitespace).filter (· ≠ [])).map String.mk

/-- Python `pat in s` on strings: substring containment. -/
def strContains (s pat : String) : Bool :=
  s.toList.tails.any fun t => pat.toList.isPrefixOf t

/-- Python `s.strip()`: remove leading and trailing whitespace. -/
def pyStrip (s : String) : String :=
  String.mk
    (((s.toList.dropWhile Char.isWhitespace).reverse.dropWhile Char.isWhitespace).reverse)

/-- Python `s.endswith(pat)`. -/
def strEndsWith (s pat : String) : Bool :=
  pat.toList.isSuffixOf s.toList

/-- Python `s.lower()` (over the ASCII range used by font names). -/
def strToLower (s : String) : String :=
  String.mk (s.toList.map Char.toLower)

/-- Python `s[:n]`: the first `n` characters. -/
def pyTake (s : String) (n : ℕ) : String :=
  String.mk (s.toList.take n)

/-- Python `sep.join(parts)`. -/
def pyJoin (sep : String) (parts : List String) : String :=
  String.mk (List.intercalate sep.toList (parts.map String.data))

/-- `np.mean` over a list of rationals. -/
def npMean (l : List ℚ) : ℚ := l.sum / l.length

/-! ### Relevance Ranker: scored candidates and the diversity-penalized
selection loop (`SectionExtractor.get_sections_with_content`). -/

/-- `SectionExtractor.DIVERSITY_PENALTY = 0.60`. -/
def DIVERSITY_PENALTY : ℚ := 0.60

/-- A scored candidate section: `{**section, "document": ..., "final_score": ...}`. -/
structure Candidate where
  section_title : String
  content : String
  page_number : ℕ
  document : String
  final_score : ℚ
deriving DecidableEq, Repr

/-- `doc_counts`: how many already-selected results come from each document,
recomputed from the current selection every round. -/
def docCounts (results : List Candidate) (d : String) : ℕ :=
  (results.filter fun r => r.document = d).length

/-- `penalized_score = final_score * (1 - doc_counts[document] * DIVERSITY_PENALTY)`. -/
def penalizedScore (results : List Candidate) (c : Candidate) : ℚ :=
  c.final_score * (1 - (docCounts results c.document : ℚ) * DIVERSITY_PENALTY)

/-- The inner `for candidate in candidates` scan of the selection loop,
carrying the running `best_candidate` / `best_score` accumulators
(`best_score` starts at `-1.0`). -/
def findBestAux (results : List Candidate) (seen : List String) :
    List Candidate → Option Candidate → ℚ → Option Candidate
  | [], best, _ => best
  | c :: rest, best, bestScore =>
    if c.section_title ∈ seen then findBestAux results seen rest best bestScore
    else
      let p := penalizedScore results c
      if bestScore < p then findBestAux results seen rest (some c) p
      else findBestAux results seen rest best bestScore

/-- One round of the selection loop: scan all candidates for the best
penalized score, starting from `best_candidate = None`, `best_score = -1.0`. -/
def findBest (results : List Candidate) (seen : List String)
    (candidates : List Candidate) : Option Candidate :=
  findBestAux results seen candidates none (-1)

/-- The eligible candidates of a round: those whose exact title string has
not already been chosen. -/
def eligible (seen : List String) (candidates : List Candidate) : List Candidate :=
  candidates.filter fun c => c.section_title ∉ seen

/-- The `while len(final_results) < k and candidates:` selection loop.
The fuel argument is the number of rounds still allowed (`k` minus the
number of results selected so far). -/
def selectLoop (results : List Candidate) (seen : List String)
    (candidates : List Candidate) : ℕ → List Candidate
  | 0 => results
  | n + 1 =>
    if candidates = [] then results
    else
      match findBest results seen candidates with
      | none => results
      | some c =>
          selectLoop (results ++ [c]) (seen ++ [c.section_title]) (candidates.erase c) n

/-- Descending stable sort by `final_score`
(`sorted(all_sections, key=lambda s: s["final_score"], reverse=True)`);
a stable sort is extensionally unique, so insertion sort models it exactly. -/
def sortByScoreDesc (l : List Candidate) : List Candidate :=
  l.insertionSort fun a b => b.final_score ≤ a.final_score

/-- The selection phase of `get_sections_with_content`: sort descending by
`final_score`, then run up to `k` diversity-penalized rounds. -/
def selectionPhase (all_sections : List Candidate) (k : ℕ) : List Candidate :=
  selectLoop [] [] (sortByScoreDesc all_sections) k

/-! #### Characterisation of a round via `List.argmax` -/

/-- The round winner as the specification describes it, with the `-1.0`
floor of the accumulator made explicit: the first eligible candidate of
maximal penalized score, provided that score exceeds `-1`. -/
def specFindBest (results : List Candidate) (seen : List String)
    (candidates : List Candidate) : Option Candidate :=
  match (eligible seen candidates).argmax (penalizedScore results) with
  | none => none
  | some m => if -1 < penalizedScore results m then some m else none

theorem eligible_cons_mem {seen : List String} {c : Candidate} (h : c.section_title ∈ seen)
    (rest : List Candidate) : eligible seen (c :: rest) = eligible seen rest := by
  simp [eligible, h]

theorem eligible_cons_not_mem {seen : List String} {c : Candidate} (h : c.section_title ∉ seen)
    (rest : List Candidate) : eligible seen (c :: rest) = c :: eligible seen rest := by
  simp [eligible, h]

/-- Once the accumulator holds a candidate `b` (with its own penalized score),
the scan is exactly Mathlib's `argmax` fold seeded with `some b`. -/
theorem findBestAux_some_eq_foldl (results : List Candidate) (seen : List String) :
    ∀ (cands : List Candidate) (b : Candidate),
      findBestAux results seen cands (some b) (penalizedScore results b) =
        (eligible seen cands).foldl
          (List.argAux fun x y => penalizedScore results y < penalizedScore results x)
          (some b) := by
  intro cands
  induction cands with
  | nil => intro b; simp [findBestAux, eligible]
  | cons c rest ih =>
    intro b
    by_cases hc : c.section_title ∈ seen
    · simp only [findBestAux, if_pos hc, eligible_cons_mem hc]
      exact ih b
    · simp only [findBestAux, if_neg hc, eligible_cons_not_mem hc, List.foldl_cons]
      by_cases hlt : penalizedScore results b < penalizedScore results c
      · rw [if_pos hlt, ih c]
        have hstep :
            (List.argAux fun x y =>
              penalizedScore results y < penalizedScore results x) (some b) c = some c := by
          simp [List.argAux, hlt]
        rw [hstep]
      · rw [if_neg hlt, ih b]
        have hstep :
            (List.argAux fun x y =>
              penalizedScore results y < penalizedScore results x) (some b) c = some b := by
          simp [List.argAux, hlt]
        rw [hstep]

theorem foldl_argAux_seed_eq_argmax (results : List Candidate) (b : Candidate)
    (l : List Candidate) :
    l.foldl (List.argAux fun x y => penalizedScore results y < penalizedScore results x)
      (some b) = (b :: l).argmax (penalizedScore results) := by
  rfl

/-- The round scan equals the argmax-with-floor specification: the first
eligible candidate of maximal penalized score, if that score exceeds `-1`. -/
theorem findBest_eq_specFindBest (results : List Candidate) (seen : List String) :
    ∀ cands, findBest results seen cands = specFindBest results seen cands := by
  intro cands
  induction cands with
  | nil => simp [findBest, findBestAux, specFindBest, eligible]
  | cons c rest ih =>
    by_cases hc : c.section_title ∈ seen
    · show findBestAux results seen (c :: rest) none (-1) = _
      simp only [findBestAux, if_pos hc]
      rw [show findBestAux results seen rest none (-1) = findBest results seen rest from rfl, ih]
      simp [specFindBest, eligible_cons_mem hc]
    · show findBestAux results seen (c :: rest) none (-1) = _
      simp only [findBestAux, if_neg hc]
      by_cases hfloor : (-1 : ℚ) < penalizedScore results c
      · rw [if_pos hfloor, findBestAux_some_eq_foldl, foldl_argAux_seed_eq_argmax]
        unfold specFindBest
        rw [eligible_cons_not_mem hc]
        cases harg : (c :: eligible seen rest).argmax (penalizedScore results) with
        | none => simp at harg
        | some m =>
          have hcm : penalizedScore results c ≤ penalizedScore results m :=
            List.le_of_mem_argmax (List.mem_cons_self c _) harg
          simp [if_pos (lt_of_lt_of_le hfloor hcm)]
      · rw [if_neg hfloor]
        rw [show findBestAux results seen rest none (-1) = findBest results seen rest from rfl, ih]
        unfold specFindBest
        rw [eligible_cons_not_mem hc, List.argmax_cons]
        cases harg : (eligible seen rest).argmax (penalizedScore results) with
        | none => simp [if_neg hfloor]
        | some m =>
          simp only
          by_cases hcm : penalizedScore results c < penalizedScore results m
          · rw [if_pos hcm]
          · rw [if_neg hcm]
            have hm1 : ¬ (-1 : ℚ) < penalizedScore results m := fun h =>
              hfloor (lt_of_lt_of_le h (le_of_not_lt hcm))
            simp [if_neg hfloor, if_neg hm1]

/-! #### The selection loop exactly as the claim words it (no `-1` floor),
and the loop with the floor made explicit. -/

/-- The selection loop exactly as the specification words it: in each round
pick the maximum-penalized eligible candidate (first-encountered wins ties),
and stop early only when no eligible candidate remains. -/
def claimSelectLoop (results : List Candidate) (seen : List String)
    (candidates : List Candidate) : ℕ → List Candidate
  | 0 => results
  | n + 1 =>
    match (eligible seen candidates).argmax (penalizedScore results) with
    | none => results
    | some c =>
        claimSelectLoop (results ++ [c]) (seen ++ [c.section_title]) (candidates.erase c) n

/-- The selection phase as the specification claims it behaves. -/
def claimSelectionPhase (all_sections : List Candidate) (k : ℕ) : List Candidate :=
  claimSelectLoop [] [] (sortByScoreDesc all_sections) k

/-- The selection loop with the `-1.0` floor of the code made explicit:
a round's winner must additionally have penalized score `> -1`. -/
def specSelectLoop (results : List Candidate) (seen : List String)
    (candidates : List Candidate) : ℕ → List Candidate
  | 0 => results
  | n + 1 =>
    if candidates = [] then results
    else
      match specFindBest results seen candidates with
      | none => results
      | some c =>
          specSelectLoop (results ++ [c]) (seen ++ [c.section_title]) (candidates.erase c) n

/-- The selection phase with the floor made explicit. -/
def specSelectionPhase (all_sections : List Candidate) (k : ℕ) : List Candidate :=
  specSelectLoop [] [] (sortByScoreDesc all_sections) k

theorem selectLoop_eq_specSelectLoop :
    ∀ (n : ℕ) (results : List Candidate) (seen : List String)
      (candidates : List Candidate),
      selectLoop results seen candidates n = specSelectLoop results seen candidates n := by
  intro n
  induction n with
  | zero => intro results seen candidates; rfl
  | succ n ih =>
    intro results seen candidates
    simp only [selectLoop, specSelectLoop, findBest_eq_specFindBest]
    by_cases hnil : candidates = []
    · simp [hnil]
    · simp only [if_neg hnil]
      cases specFindBest results seen candidates with
      | none => rfl
      | some c => exact ih _ _ _

theorem selectLoop_length_le :
    ∀ (n : ℕ) (results : List Candidate) (seen : List String)
      (candidates : List Candidate),
      (selectLoop results seen candidates n).length ≤ results.length + n := by
  intro n
  induction n with
  | zero => intro results seen candidates; simp [selectLoop]
  | succ n ih =>
    intro results seen candidates
    simp only [selectLoop]
    by_cases hnil : candidates = []
    · rw [if_pos hnil]; omega
    · rw [if_neg hnil]
      cases hfb : findBest results seen candidates with
      | none => simp only []; omega
      | some c =>
        simp only []
        calc (selectLoop (results ++ [c]) (seen ++ [c.section_title]) (candidates.erase c) n).length
            ≤ (results ++ [c]).length + n := ih _ _ _
          _ = results.length + (n + 1) := by simp [List.length_append]; omega

/-- The winner of a round is an eligible candidate: it occurs among the
candidates and its title has not been seen. -/
theorem findBest_mem_and_not_seen {results : List Candidate} {seen : List String}
    {candidates : List Candidate} {c : Candidate}
    (h : findBest results seen candidates = some c) :
    c ∈ candidates ∧ c.section_title ∉ seen := by
  rw [findBest_eq_specFindBest] at h
  unfold specFindBest at h
  cases harg : (eligible seen candidates).argmax (penalizedScore results) with
  | none => rw [harg] at h; exact absurd h (by simp)
  | some m =>
    rw [harg] at h
    dsimp only at h
    by_cases hm : (-1 : ℚ) < penalizedScore results m
    · rw [if_pos hm] at h
      injection h with h
      subst h
      have hmem := List.argmax_mem harg
      have hf := List.mem_filter.mp hmem
      exact ⟨hf.1, by simpa using hf.2⟩
    · rw [if_neg hm] at h; exact absurd h (by simp)

theorem selectLoop_titles_nodup :
    ∀ (n : ℕ) (results : List Candidate) (seen : List String)
      (candidates : List Candidate),
      (∀ r ∈ results, r.section_title ∈ seen) →
      (results.map Candidate.section_title).Nodup →
      ((selectLoop results seen candidates n).map Candidate.section_title).Nodup := by
  intro n
  induction n with
  | zero => intro results seen candidates _ hnd; exact hnd
  | succ n ih =>
    intro results seen candidates hsub hnd
    simp only [selectLoop]
    by_cases hnil : candidates = []
    · simp only [if_pos hnil]; exact hnd
    · simp only [if_neg hnil]
      cases hfb : findBest results seen candidates with
      | none => exact hnd
      | some c =>
        obtain ⟨-, hcseen⟩ := findBest_mem_and_not_seen hfb
        apply ih
        · intro r hr
          rcases List.mem_append.mp hr with h | h
          · exact List.mem_append.mpr (Or.inl (hsub r h))
          · simp at h; subst h; simp
        · rw [List.map_append, List.nodup_append]
          refine ⟨hnd, by simp, ?_⟩
          intro t ht
          simp only [List.map_cons, List.map_nil, List.mem_singleton]
          intro hts
          subst hts
          rcases List.mem_map.mp ht with ⟨r, hr, hrt⟩
          exact hcseen (hrt ▸ hsub r hr)

/-- Members of the selection loop's output come from the initial results or
from the candidate pool. -/
theorem selectLoop_subset :
    ∀ (n : ℕ) (results : List Candidate) (seen : List String)
      (candidates : List Candidate) (x : Candidate),
      x ∈ selectLoop results seen candidates n → x ∈ results ∨ x ∈ candidates := by
  intro n
  induction n with
  | zero => intro results seen candidates x hx; exact Or.inl hx
  | succ n ih =>
    intro results seen candidates x hx
    simp only [selectLoop] at hx
    by_cases hnil : candidates = []
    · rw [if_pos hnil] at hx; exact Or.inl hx
    · rw [if_neg hnil] at hx
      cases hfb : findBest results seen candidates with
      | none => rw [hfb] at hx; exact Or.inl hx
      | some c =>
        rw [hfb] at hx
        rcases ih _ _ _ x hx with h | h
        · rcases List.mem_append.mp h with h | h
          · exact Or.inl h
          · simp at h; subst h
            exact Or.inr (findBest_mem_and_not_seen hfb).1
        · exact Or.inr (List.mem_of_mem_erase h)

unseal Rat.mul Rat.add Rat.sub Rat.inv Rat.ofScientific

theorem docCounts_cast_le_one {results : List Candidate} {d : String}
    (h : (docCounts results d : ℚ) < 5 / 3) : docCounts results d ≤ 1 := by
  by_contra hc
  push_neg at hc
  have : (2 : ℚ) ≤ (docCounts results d : ℚ) := by exact_mod_cast hc
  linarith

/-- C1, counterexample: five candidates from one document, all with
`final_score = 0.9` and distinct titles, `k = 5`. The code's accumulator
starts at `best_score = -1.0`, so in round 5 the remaining eligible
candidate (penalized to `0.9 * (1 - 4*0.6) = -1.26`) is never selected and
the loop stops with only 4 results, although an eligible candidate remains;
the claim's literal reading would select it. -/
theorem C1_counterexample :
    selectionPhase
        [⟨"t1", "", 1, "d", 9/10⟩, ⟨"t2", "", 1, "d", 9/10⟩, ⟨"t3", "", 1, "d", 9/10⟩,
         ⟨"t4", "", 1, "d", 9/10⟩, ⟨"t5", "", 1, "d", 9/10⟩] 5 =
      [⟨"t1", "", 1, "d", 9/10⟩, ⟨"t2", "", 1, "d", 9/10⟩, ⟨"t3", "", 1, "d", 9/10⟩,
       ⟨"t4", "", 1, "d", 9/10⟩] ∧
    claimSelectionPhase
        [⟨"t1", "", 1, "d", 9/10⟩, ⟨"t2", "", 1, "d", 9/10⟩, ⟨"t3", "", 1, "d", 9/10⟩,
         ⟨"t4", "", 1, "d", 9/10⟩, ⟨"t5", "", 1, "d", 9/10⟩] 5 =
      [⟨"t1", "", 1, "d", 9/10⟩, ⟨"t2", "", 1, "d", 9/10⟩, ⟨"t3", "", 1, "d", 9/10⟩,
       ⟨"t4", "", 1, "d", 9/10⟩, ⟨"t5", "", 1, "d", 9/10⟩] ∧
    selectionPhase
        [⟨"t1", "", 1, "d", 9/10⟩, ⟨"t2", "", 1, "d", 9/10⟩, ⟨"t3", "", 1, "d", 9/10⟩,
         ⟨"t4", "", 1, "d", 9/10⟩, ⟨"t5", "", 1, "d", 9/10⟩] 5 ≠
      claimSelectionPhase
        [⟨"t1", "", 1, "d", 9/10⟩, ⟨"t2", "", 1, "d", 9/10⟩, ⟨"t3", "", 1, "d", 9/10⟩,
         ⟨"t4", "", 1, "d", 9/10⟩, ⟨"t5", "", 1, "d", 9/10⟩] 5 := by
  refine ⟨by decide, by decide, by decide⟩

/-- C1 (amended): the selection phase sorts candidates descending by
`final_score` and runs up to `k` rounds; each round selects the
first-encountered eligible candidate of maximal `penalized_score`, but only
if that score exceeds the accumulator's initial `-1.0`; otherwise it stops,
so the result has length at most `k` and pairwise distinct titles. -/
theorem C1_selection_loop (all_sections : List Candidate) (k : ℕ) :
    selectionPhase all_sections k = specSelectionPhase all_sections k ∧
    (selectionPhase all_sections k).length ≤ k ∧
    ((selectionPhase all_sections k).map Candidate.section_title).Nodup := by
  refine ⟨selectLoop_eq_specSelectLoop k [] [] _, ?_, ?_⟩
  · simpa using selectLoop_length_le k [] [] (sortByScoreDesc all_sections)
  · exact selectLoop_titles_nodup k [] [] (sortByScoreDesc all_sections)
      (by simp) (by simp)

/-- C4, counterexample: document "A" already has the two top picks; its
remaining candidate with negative `final_score = -0.5` is penalized to
`(-0.5)*(1 - 2*0.6) = 0.1`, which beats document "B"'s remaining positive
candidate (penalized score `0.05`), so "A" receives a 3rd pick while a
positive-penalized candidate from another document remains. -/
theorem C4_counterexample :
    selectionPhase
        [⟨"a1", "", 1, "A", 9/10⟩, ⟨"a2", "", 1, "A", 8/10⟩,
         ⟨"b1", "", 1, "B", 1/20⟩, ⟨"a3", "", 1, "A", -1/2⟩] 4 =
      [⟨"a1", "", 1, "A", 9/10⟩, ⟨"a2", "", 1, "A", 8/10⟩,
       ⟨"a3", "", 1, "A", -1/2⟩, ⟨"b1", "", 1, "B", 1/20⟩] ∧
    docCounts [⟨"a1", "", 1, "A", 9/10⟩, ⟨"a2", "", 1, "A", 8/10⟩] "A" = 2 ∧
    0 < penalizedScore [⟨"a1", "", 1, "A", 9/10⟩, ⟨"a2", "", 1, "A", 8/10⟩]
        ⟨"b1", "", 1, "B", 1/20⟩ := by
  refine ⟨by decide, by decide, by decide⟩

/-- C4 (amended): once a document has 2 selections, a remaining candidate
from it with positive `final_score` has penalized score
`final_score * (1 - 2*0.6) < 0` and is strictly dominated by every candidate
with positive penalized score; hence, when all candidates have positive
`final_score`, a round in which some eligible candidate has positive
penalized score never selects a 3rd pick from any document. -/
theorem C4_no_third_pick (results : List Candidate) (seen : List String)
    (cands : List Candidate) (c : Candidate) :
    (docCounts results c.document = 2 →
      penalizedScore results c = c.final_score * (1 - 2 * DIVERSITY_PENALTY) ∧
      (0 < c.final_score →
        penalizedScore results c < 0 ∧
        ∀ e : Candidate, 0 < penalizedScore results e →
          penalizedScore results c < penalizedScore results e)) ∧
    ((∀ x ∈ cands, 0 < x.final_score) →
      (∃ e ∈ cands, e.section_title ∉ seen ∧ 0 < penalizedScore results e) →
      ∃ m, findBest results seen cands = some m ∧
        0 < penalizedScore results m ∧ docCounts results m.document ≤ 1) := by
  constructor
  · intro h2
    have hp : penalizedScore results c = c.final_score * (1 - 2 * DIVERSITY_PENALTY) := by
      unfold penalizedScore
      rw [h2]
      norm_num
    refine ⟨hp, fun hpos => ?_⟩
    have hneg : penalizedScore results c < 0 := by
      rw [hp]
      have : (1 - 2 * DIVERSITY_PENALTY : ℚ) = -1/5 := by norm_num [DIVERSITY_PENALTY]
      rw [this]
      nlinarith
    exact ⟨hneg, fun e he => lt_trans hneg he⟩
  · intro hall ⟨e, hec, hes, hep⟩
    have hee : e ∈ eligible seen cands := List.mem_filter.mpr ⟨hec, by simpa using hes⟩
    cases harg : (eligible seen cands).argmax (penalizedScore results) with
    | none =>
      rw [List.argmax_eq_none] at harg
      rw [harg] at hee
      exact absurd hee (List.not_mem_nil e)
    | some m =>
      have hem : penalizedScore results e ≤ penalizedScore results m :=
        List.le_of_mem_argmax hee harg
      have hmp : 0 < penalizedScore results m := lt_of_lt_of_le hep hem
      refine ⟨m, ?_, hmp, ?_⟩
      · rw [findBest_eq_specFindBest]
        unfold specFindBest
        rw [harg]
        dsimp only
        rw [if_pos (by linarith : (-1 : ℚ) < penalizedScore results m)]
      · have hmc : m ∈ cands := (List.mem_filter.mp (List.argmax_mem harg)).1
        have hmf : 0 < m.final_score := hall m hmc
        have hfac : 0 < 1 - (docCounts results m.document : ℚ) * DIVERSITY_PENALTY := by
          by_contra hle
          push_neg at hle
          unfold penalizedScore at hmp
          nlinarith
        apply docCounts_cast_le_one
        have : (docCounts results m.document : ℚ) * DIVERSITY_PENALTY < 1 := by linarith
        unfold DIVERSITY_PENALTY at this
        nlinarith

/-- Closed witness for `C4_no_third_pick` at a concrete selection state. -/
theorem C4_no_third_pick_witness :
    ∃ m, findBest [⟨"a1", "", 1, "A", 9/10⟩, ⟨"a2", "", 1, "A", 8/10⟩] ["a1", "a2"]
        [⟨"a3", "", 1, "A", 7/10⟩, ⟨"b1", "", 1, "B", 1/20⟩] = some m ∧
      0 < penalizedScore [⟨"a1", "", 1, "A", 9/10⟩, ⟨"a2", "", 1, "A", 8/10⟩] m ∧
      docCounts [⟨"a1", "", 1, "A", 9/10⟩, ⟨"a2", "", 1, "A", 8/10⟩] m.document ≤ 1 :=
  (C4_no_third_pick [⟨"a1", "", 1, "A", 9/10⟩, ⟨"a2", "", 1, "A", 8/10⟩] ["a1", "a2"]
      [⟨"a3", "", 1, "A", 7/10⟩, ⟨"b1", "", 1, "B", 1/20⟩]
      ⟨"a3", "", 1, "A", 7/10⟩).2
    (by decide)
    ⟨⟨"b1", "", 1, "B", 1/20⟩, by decide, by decide, by decide⟩

/-! ### Relevance Ranker: scoring a candidate section
(`get_sections_with_content`, scoring part). Themes are the KeyBERT
dictionary `{phrase: weight}`, modelled as an association list with
distinct keys; `theme_embeddings = {theme: model.encode(theme) ...}`. -/

/-- `theme_embeddings = {theme: self.model.encode(theme) for theme in dynamic_themes}`. -/
def themeEmbsOf (encode : String → Emb) (themes : List (String × ℚ)) :
    List (String × Emb) :=
  themes.map fun tw => (tw.1, encode tw.1)

/-- The `theme_scores` list comprehension: outer loop over
`theme_embeddings.items()`, inner loop over `dynamic_themes.items()`
keeping the pairs whose keys match. -/
def themeScores (sim : Emb → Emb → ℚ) (secEmb : Emb)
    (themeEmbs : List (String × Emb)) (themes : List (String × ℚ)) : List ℚ :=
  themeEmbs.flatMap fun te =>
    (themes.filter fun tw => tw.1 = te.1).map fun tw => sim secEmb te.2 * tw.2

/-- `thematic_score`: `0.0` when there are no themes, otherwise the
`np.mean` of `theme_scores` (again `0.0` when that list is empty). -/
def thematicScore (sim : Emb → Emb → ℚ) (secEmb : Emb)
    (themeEmbs : List (String × Emb)) (themes : List (String × ℚ)) : ℚ :=
  if themes = [] then 0
  else
    let ts := themeScores sim secEmb themeEmbs themes
    if ts = [] then 0 else npMean ts

/-- `final_score = (overall_relevance_score * 0.4) + (thematic_score * 0.6)`. -/
def finalScore (sim : Emb → Emb → ℚ) (secEmb queryEmb : Emb)
    (themeEmbs : List (String × Emb)) (themes : List (String × ℚ)) : ℚ :=
  sim secEmb queryEmb * 0.4 + thematicScore sim secEmb themeEmbs themes * 0.6

/-- The thematic score as the specification words it: the mean over the
themes of `cosine_similarity(section_embedding, theme.embedding) * theme.weight`,
or `0.0` if the theme set is empty. -/
def specThematicScore (sim : Emb → Emb → ℚ) (encode : String → Emb)
    (secEmb : Emb) (themes : List (String × ℚ)) : ℚ :=
  if themes = [] then 0
  else npMean (themes.map fun tw => sim secEmb (encode tw.1) * tw.2)

theorem filter_key_eq_singleton :
    ∀ (full : List (String × ℚ)), (full.map Prod.fst).Nodup →
      ∀ tw ∈ full, (full.filter fun p => p.1 = tw.1) = [tw] := by
  intro full
  induction full with
  | nil => intro _ tw htw; exact absurd htw (List.not_mem_nil tw)
  | cons p rest ih =>
    intro hnd tw htw
    rw [List.map_cons, List.nodup_cons] at hnd
    rcases List.mem_cons.mp htw with rfl | htw'
    · rw [List.filter_cons_of_pos (by simp)]
      have hnone : (rest.filter fun q => q.1 = tw.1) = [] := by
        rw [List.filter_eq_nil_iff]
        intro q hq
        simp only [decide_eq_true_eq]
        intro hqe
        exact hnd.1 (hqe ▸ List.mem_map_of_mem Prod.fst hq)
      rw [hnone]
    · rw [List.filter_cons_of_neg, ih hnd.2 tw htw']
      simp only [decide_eq_true_eq]
      intro hpe
      exact hnd.1 (hpe ▸ List.mem_map_of_mem Prod.fst htw')

theorem themeScores_eq_map (sim : Emb → Emb → ℚ) (encode : String → Emb)
    (secEmb : Emb) (themes : List (String × ℚ))
    (hnd : (themes.map Prod.fst).Nodup) :
    themeScores sim secEmb (themeEmbsOf encode themes) themes =
      themes.map fun tw => sim secEmb (encode tw.1) * tw.2 := by
  have haux : ∀ l : List (String × ℚ), (∀ tw ∈ l, tw ∈ themes) →
      themeScores sim secEmb (themeEmbsOf encode l) themes =
        l.map fun tw => sim secEmb (encode tw.1) * tw.2 := by
    intro l
    induction l with
    | nil => intro _; rfl
    | cons tw rest ih =>
      intro hsub
      unfold themeScores themeEmbsOf
      rw [List.map_cons, List.flatMap_cons]
      have hfilter := filter_key_eq_singleton themes hnd tw (hsub tw (List.mem_cons_self tw rest))
      dsimp only
      rw [hfilter]
      have hrest := ih fun x hx => hsub x (List.mem_cons_of_mem tw hx)
      unfold themeScores themeEmbsOf at hrest
      rw [hrest]
      simp
  exact haux themes fun _ h => h

/-- C2: `final_score = 0.4 * overall_relevance + 0.6 * thematic_score`, where
the thematic score is the mean over the themes of
`sim(section_embedding, theme_embedding) * theme_weight`, and `0.0` when the
theme set is empty. -/
theorem C2_final_score (sim : Emb → Emb → ℚ) (encode : String → Emb)
    (secEmb queryEmb : Emb) (themes : List (String × ℚ))
    (hnd : (themes.map Prod.fst).Nodup) :
    finalScore sim secEmb queryEmb (themeEmbsOf encode themes) themes =
      0.4 * sim secEmb queryEmb + 0.6 * specThematicScore sim encode secEmb themes ∧
    (themes = [] → specThematicScore sim encode secEmb themes = 0) ∧
    (themes ≠ [] → specThematicScore sim encode secEmb themes =
      npMean (themes.map fun tw => sim secEmb (encode tw.1) * tw.2)) := by
  refine ⟨?_, fun h => by simp [specThematicScore, h], fun h => by simp [specThematicScore, h]⟩
  unfold finalScore thematicScore specThematicScore
  by_cases h : themes = []
  · simp [h]; ring
  · rw [if_neg h, if_neg h, themeScores_eq_map sim encode secEmb themes hnd]
    rw [if_neg (by simpa using h)]
    ring

/-- A concrete similarity function used by closed witnesses. -/
def simW : Emb → Emb → ℚ := fun a b => a.sum * b.sum

/-- A concrete embedding function used by closed witnesses. -/
def encodeW : String → Emb := fun t => [(t.length : ℚ)]

/-- Closed witness for `C2_final_score` on a concrete theme set. -/
theorem C2_final_score_witness :
    finalScore simW (encodeW "x") [3]
        (themeEmbsOf encodeW [("ab", 1/2), ("c", 1/3)])
        [("ab", 1/2), ("c", 1/3)] =
      0.4 * simW (encodeW "x") [3] +
        0.6 * specThematicScore simW encodeW (encodeW "x") [("ab", 1/2), ("c", 1/3)] ∧
    ([("ab", (1:ℚ)/2), ("c", 1/3)] = [] →
      specThematicScore simW encodeW (encodeW "x") [("ab", 1/2), ("c", 1/3)] = 0) ∧
    ([("ab", (1:ℚ)/2), ("c", 1/3)] ≠ [] →
      specThematicScore simW encodeW (encodeW "x") [("ab", 1/2), ("c", 1/3)] =
        npMean ([("ab", (1:ℚ)/2), ("c", 1/3)].map fun tw =>
          simW (encodeW "x") (encodeW tw.1) * tw.2)) :=
  C2_final_score simW encodeW (encodeW "x") [3] [("ab", 1/2), ("c", 1/3)] (by decide)

/-! ### Relevance Ranker: candidate building and hard filters
(`get_sections_with_content`, filtering part). -/

/-- A section as produced by the Structural Segmenter. -/
structure RawSection where
  section_title : String
  content : String
  page_number : ℕ
deriving DecidableEq, Repr

/-- A segmented document: `{"filename": ..., "sections": [...]}`. -/
structure PDoc where
  filename : String
  sections : List RawSection
deriving DecidableEq, Repr

/-- The requirement model `req`: combined text and query embedding. -/
structure QueryReq where
  combined_text : String
  embedding : Emb

/-- `section_text = f"{section['section_title']}. {section['content'][:500]}"`. -/
def sectionText (s : RawSection) : String :=
  s.section_title ++ ". " ++ pyTake s.content 500

/-- The candidate-building pass of `get_sections_with_content`: drop
sections whose title contains ".pdf", drop sections whose combined text has
fewer than 10 words, and score the rest. -/
def buildCandidates (sim : Emb → Emb → ℚ) (encode : String → Emb)
    (req : QueryReq) (themeEmbs : List (String × Emb))
    (themes : List (String × ℚ)) (docs : List PDoc) : List Candidate :=
  docs.flatMap fun doc =>
    doc.sections.filterMap fun s =>
      if strContains s.section_title ".pdf" then none
      else if (pyWords (sectionText s)).length < 10 then none
      else some
        { section_title := s.section_title
          content := s.content
          page_number := s.page_number
          document := doc.filename
          final_score := finalScore sim (encode (sectionText s)) req.embedding themeEmbs themes }

/-- `SectionExtractor.get_sections_with_content`, with the KeyBERT theme
extraction abstracted into the `themes` input. -/
def get_sections_with_content (sim : Emb → Emb → ℚ) (encode : String → Emb)
    (req : QueryReq) (themes : List (String × ℚ)) (docs : List PDoc)
    (k : ℕ) : List Candidate :=
  let themeEmbs := themeEmbsOf encode themes
  let all_sections := buildCandidates sim encode req themeEmbs themes docs
  if all_sections = [] then []
  else selectLoop [] [] (sortByScoreDesc all_sections) k

theorem mem_buildCandidates_passes_filters {sim : Emb → Emb → ℚ}
    {encode : String → Emb} {req : QueryReq} {themeEmbs : List (String × Emb)}
    {themes : List (String × ℚ)} {docs : List PDoc} {c : Candidate}
    (hc : c ∈ buildCandidates sim encode req themeEmbs themes docs) :
    ∃ s : RawSection, c.section_title = s.section_title ∧ c.content = s.content ∧
      strContains s.section_title ".pdf" = false ∧
      ¬ (pyWords (sectionText s)).length < 10 := by
  unfold buildCandidates at hc
  rcases List.mem_flatMap.mp hc with ⟨doc, -, hsec⟩
  rcases List.mem_filterMap.mp hsec with ⟨s, -, hsome⟩
  by_cases h1 : strContains s.section_title ".pdf"
  · rw [if_pos h1] at hsome; exact absurd hsome (by simp)
  · rw [if_neg h1] at hsome
    by_cases h2 : (pyWords (sectionText s)).length < 10
    · rw [if_pos h2] at hsome; exact absurd hsome (by simp)
    · rw [if_neg h2] at hsome
      injection hsome with hsome
      subst hsome
      exact ⟨s, rfl, rfl, by simpa using h1, h2⟩

/-- C6: a section whose title contains ".pdf", or whose combined
`"{title}. {content[:500]}"` has fewer than 10 words, is filtered out
before scoring and never appears in the ranking output. -/
theorem C6_hard_filters (sim : Emb → Emb → ℚ) (encode : String → Emb)
    (req : QueryReq) (themes : List (String × ℚ)) (docs : List PDoc) (k : ℕ)
    (s : RawSection)
    (hbad : strContains s.section_title ".pdf" = true ∨
      (pyWords (sectionText s)).length < 10) :
    ∀ c ∈ get_sections_with_content sim encode req themes docs k,
      ¬ (c.section_title = s.section_title ∧ c.content = s.content) := by
  intro c hc ⟨hct, hcc⟩
  unfold get_sections_with_content at hc
  set all := buildCandidates sim encode req (themeEmbsOf encode themes) themes docs with hall
  by_cases hnil : all = []
  · rw [if_pos hnil] at hc; exact absurd hc (List.not_mem_nil c)
  · rw [if_neg hnil] at hc
    have hmem : c ∈ all := by
      rcases selectLoop_subset k [] [] (sortByScoreDesc all) c hc with h | h
      · exact absurd h (List.not_mem_nil c)
      · exact ((List.perm_insertionSort _ all).mem_iff).mp h
    rcases mem_buildCandidates_passes_filters hmem with ⟨s', hts, hcs, hpdf, hwords⟩
    have htitle : s'.section_title = s.section_title := hts ▸ hct
    have hcontent : s'.content = s.content := hcs ▸ hcc
    have hsectext : sectionText s' = sectionText s := by
      unfold sectionText; rw [htitle, hcontent]
    rcases hbad with hb | hb
    · rw [htitle] at hpdf; rw [hpdf] at hb; exact Bool.false_ne_true hb
    · rw [hsectext] at hwords; exact hwords hb

/-- Closed witness for `C6_hard_filters`: the surviving candidate of a
concrete ranking output is not the ".pdf"-titled section. -/
theorem C6_hard_filters_witness :
    ¬ ((⟨"Intro", "a1 a2 a3 a4 a5 a6 a7 a8 a9 a10 a11", 1, "doc", 2/5⟩ :
        Candidate).section_title = "report.pdf" ∧
      (⟨"Intro", "a1 a2 a3 a4 a5 a6 a7 a8 a9 a10 a11", 1, "doc", 2/5⟩ :
        Candidate).content = "w1 w2 w3 w4 w5 w6 w7 w8 w9 w10") :=
  C6_hard_filters (fun _ _ => 1) (fun _ => [1]) ⟨"Task: t", [1]⟩ []
    [⟨"doc", [⟨"report.pdf", "w1 w2 w3 w4 w5 w6 w7 w8 w9 w10", 1⟩,
      ⟨"Intro", "a1 a2 a3 a4 a5 a6 a7 a8 a9 a10 a11", 1⟩]⟩] 3
    ⟨"report.pdf", "w1 w2 w3 w4 w5 w6 w7 w8 w9 w10", 1⟩
    (Or.inl (by decide))
    ⟨"Intro", "a1 a2 a3 a4 a5 a6 a7 a8 a9 a10 a11", 1, "doc", 2/5⟩
    (by decide)

/-! ### Structural Segmenter (`PDFProcessor.extract_text_with_structure`).
A pdfplumber character, line and page; a page whose `extract_text_lines`
call raises is an `.error` carrying the exception message. -/

/-- A pdfplumber character record: `fontname` and `size`. -/
structure PChar where
  fontname : String
  size : ℚ
deriving DecidableEq, Repr

/-- A pdfplumber text line: its `text` and its `chars`. -/
structure PLine where
  text : String
  chars : List PChar
deriving DecidableEq, Repr

/-- A page: the sizes of its `extract_words()` output (for the median) and
the result of `extract_text_lines` (or the raised exception's message). -/
structure PageData where
  wordSizes : List ℚ
  lines : Except String (List PLine)

/-- An opened pdfplumber document. -/
structure PdfDoc where
  pages : List PageData

/-- `np.median`: sort ascending; middle element for odd length, mean of the
two middle elements for even length. -/
def npMedian (l : List ℚ) : ℚ :=
  let s := l.insertionSort (· ≤ ·)
  if l.length % 2 = 1 then s.getD (l.length / 2) 0
  else (s.getD (l.length / 2 - 1) 0 + s.getD (l.length / 2) 0) / 2

/-- `PDFProcessor._get_median_font_size`: median of the truthy word sizes,
`10.0` when there are none. -/
def medianFontSize (wordSizes : List ℚ) : ℚ :=
  let sizes := wordSizes.filter (· ≠ 0)
  if sizes = [] then 10 else npMedian sizes

/-- The walking state of the segmenter: current section title (None before
any line is seen), accumulated content, the page the section started on,
and the sections committed so far. -/
structure SegState where
  title : Option String
  content : String
  page : ℕ
  sections : List RawSection
deriving DecidableEq, Repr

/-- The title heuristic: first char bold/black, size above the threshold,
word count strictly between 3 and 12, no trailing '.' or ','. -/
def isTitleLine (threshold : ℚ) (line : PLine) : Bool :=
  match line.chars with
  | [] => false
  | fc :: _ =>
    let lt := pyStrip line.text
    let font_name := strToLower fc.fontname
    let is_bold := strContains font_name "bold" || strContains font_name "black"
    let is_large_enough := decide (threshold < fc.size)
    let is_short_line := decide (3 < (pyWords lt).length) && decide ((pyWords lt).length < 12)
    let ends_with_punctuation := strEndsWith lt "." || strEndsWith lt ","
    is_large_enough && is_bold && is_short_line && !ends_with_punctuation

/-- Processing of one line: skip blank/charless lines, seed the initial
title, and either close the current section (title line) or append to its
content. -/
def processLine (threshold : ℚ) (pageNum : ℕ) (st : SegState) (line : PLine) : SegState :=
  let lt := pyStrip line.text
  if lt = "" || line.chars = [] then st
  else
    let t := st.title.getD lt
    if isTitleLine threshold line then
      { title := some lt
        content := ""
        page := pageNum
        sections :=
          if pyStrip st.content ≠ "" then st.sections ++ [⟨t, pyStrip st.content, st.page⟩]
          else st.sections }
    else
      { st with title := some t, content := st.content ++ lt ++ " " }

/-- The page loop with exception semantics: pages are processed in order
until one's `extract_text_lines` raises, in which case the state reached so
far is returned together with the exception message. -/
def runPages (threshold : ℚ) : List PageData → ℕ → SegState → SegState × Option String
  | [], _, st => (st, none)
  | p :: rest, n, st =>
    match p.lines with
    | .error e => (st, some e)
    | .ok lines => runPages threshold rest (n + 1) (lines.foldl (processLine threshold n) st)

/-- `file_path.split('\\')[-1].split('/')[-1]`. -/
def pyBasename (p : String) : String :=
  String.mk (((((p.toList.splitOnP (· = '\\')).getLastD p.toList).splitOnP
    (· = '/')).getLastD p.toList))

/-- `PDFProcessor.extract_text_with_structure`: open failure and page
failure degrade to an error-placeholder section only when no section was
extracted; a document with no pages yields zero sections. -/
def extract_text_with_structure (openRes : Except String PdfDoc) (file_path : String) : PDoc :=
  let doc_filename := pyBasename file_path
  match openRes with
  | .error e => ⟨doc_filename, [⟨"Error processing " ++ doc_filename, e, 1⟩]⟩
  | .ok pdf =>
    match pdf.pages with
    | [] => ⟨doc_filename, []⟩
    | p0 :: _ =>
      let threshold := medianFontSize p0.wordSizes * 1.15
      match runPages threshold pdf.pages 1 ⟨none, "", 1, []⟩ with
      | (st, none) =>
          ⟨doc_filename,
            st.sections ++
              (if pyStrip st.content ≠ "" then [⟨st.title.getD "", pyStrip st.content, st.page⟩]
               else [])⟩
      | (st, some e) =>
          ⟨doc_filename,
            if st.sections = [] then [⟨"Error processing " ++ doc_filename, e, 1⟩]
            else st.sections⟩

/-- C5: a line is classified as a title line iff its first character's font
name contains "bold" or "black" (lower-cased), its font size strictly
exceeds 1.15× the median of the first page's word sizes, its word count is
strictly between 3 and 12, and it does not end in '.' or ','; a title line
closes the current section (appended only when its accumulated content is
non-empty) and opens a new one titled by this line, while a non-title line
is appended to the current content with a separating space. -/
theorem C5_title_heuristic (ws : List ℚ) (pageNum : ℕ) (st : SegState)
    (line : PLine) (fc : PChar) (cs : List PChar)
    (hchars : line.chars = fc :: cs) (hlt : pyStrip line.text ≠ "") :
    (isTitleLine (medianFontSize ws * 1.15) line = true ↔
      ((strContains (strToLower fc.fontname) "bold" = true ∨
        strContains (strToLower fc.fontname) "black" = true) ∧
       medianFontSize ws * 1.15 < fc.size ∧
       3 < (pyWords (pyStrip line.text)).length ∧
       (pyWords (pyStrip line.text)).length < 12 ∧
       ¬(strEndsWith (pyStrip line.text) "." = true ∨
         strEndsWith (pyStrip line.text) "," = true))) ∧
    (isTitleLine (medianFontSize ws * 1.15) line = true →
      processLine (medianFontSize ws * 1.15) pageNum st line =
        ⟨some (pyStrip line.text), "", pageNum,
          if pyStrip st.content ≠ "" then
            st.sections ++ [⟨st.title.getD (pyStrip line.text), pyStrip st.content, st.page⟩]
          else st.sections⟩) ∧
    (isTitleLine (medianFontSize ws * 1.15) line = false →
      processLine (medianFontSize ws * 1.15) pageNum st line =
        { st with title := some (st.title.getD (pyStrip line.text)),
                  content := st.content ++ pyStrip line.text ++ " " }) := by
  refine ⟨?_, ?_, ?_⟩
  · unfold isTitleLine
    rw [hchars]
    simp only [Bool.and_eq_true, Bool.or_eq_true, Bool.not_eq_true', Bool.or_eq_false_iff,
      decide_eq_true_eq, Bool.and_eq_true, Bool.not_eq_true]
    constructor
    · rintro ⟨⟨⟨hlarge, hbold⟩, hshort⟩, hpunct⟩
      exact ⟨hbold, hlarge, hshort.1, hshort.2,
        by rw [hpunct.1, hpunct.2]; simp⟩
    · rintro ⟨hbold, hlarge, hs1, hs2, hpunct⟩
      push_neg at hpunct
      refine ⟨⟨⟨hlarge, hbold⟩, hs1, hs2⟩, ?_, ?_⟩
      · exact Bool.not_eq_true _ ▸ (Bool.eq_false_iff.mpr (fun h => hpunct.1 h))
      · exact Bool.not_eq_true _ ▸ (Bool.eq_false_iff.mpr (fun h => hpunct.2 h))
  · intro htitle
    unfold processLine
    rw [if_neg (by simp [hlt, hchars]), if_pos htitle]
  · intro htitle
    unfold processLine
    rw [if_neg (by simp [hlt, hchars]), if_neg (by simp [htitle])]

/-- Closed witness for `C5_title_heuristic` at a concrete bold, large,
four-word line. -/
theorem C5_title_heuristic_witness :
    (isTitleLine (medianFontSize [10, 10, 10] * 1.15)
        ⟨"Heading One Two Three", [⟨"Arial-Bold", 20⟩]⟩ = true ↔
      ((strContains (strToLower "Arial-Bold") "bold" = true ∨
        strContains (strToLower "Arial-Bold") "black" = true) ∧
       medianFontSize [10, 10, 10] * 1.15 < 20 ∧
       3 < (pyWords (pyStrip "Heading One Two Three")).length ∧
       (pyWords (pyStrip "Heading One Two Three")).length < 12 ∧
       ¬(strEndsWith (pyStrip "Heading One Two Three") "." = true ∨
         strEndsWith (pyStrip "Heading One Two Three") "," = true))) ∧
    (isTitleLine (medianFontSize [10, 10, 10] * 1.15)
        ⟨"Heading One Two Three", [⟨"Arial-Bold", 20⟩]⟩ = true →
      processLine (medianFontSize [10, 10, 10] * 1.15) 2
          ⟨some "t0", "body text", 1, []⟩
          ⟨"Heading One Two Three", [⟨"Arial-Bold", 20⟩]⟩ =
        ⟨some (pyStrip "Heading One Two Three"), "", 2,
          if pyStrip "body text" ≠ "" then
            [] ++ [⟨(some "t0").getD (pyStrip "Heading One Two Three"),
              pyStrip "body text", 1⟩]
          else []⟩) ∧
    (isTitleLine (medianFontSize [10, 10, 10] * 1.15)
        ⟨"Heading One Two Three", [⟨"Arial-Bold", 20⟩]⟩ = false →
      processLine (medianFontSize [10, 10, 10] * 1.15) 2
          ⟨some "t0", "body text", 1, []⟩
          ⟨"Heading One Two Three", [⟨"Arial-Bold", 20⟩]⟩ =
        { title := some ((some "t0").getD (pyStrip "Heading One Two Three")),
          content := "body text" ++ pyStrip "Heading One Two Three" ++ " ",
          page := 1, sections := [] }) :=
  C5_title_heuristic [10, 10, 10] 2 ⟨some "t0", "body text", 1, []⟩
    ⟨"Heading One Two Three", [⟨"Arial-Bold", 20⟩]⟩ ⟨"Arial-Bold", 20⟩ []
    rfl (by decide)

/-- C9, counterexample: page 1 produces a section (closed by a title line),
then page 2's text extraction fails with message "boom"; the document keeps
the page-1 section and no section carries the error message, so a
page-extraction failure does not, in general, emit an error-message
section. -/
theorem C9_counterexample :
    extract_text_with_structure
        (.ok ⟨[⟨[10, 10, 10],
          .ok [⟨"alpha beta gamma delta", [⟨"Arial", 10⟩]⟩,
               ⟨"Heading One Two Three", [⟨"Arial-Bold", 20⟩]⟩]⟩,
          ⟨[], .error "boom"⟩]⟩) "f.pdf" =
      ⟨"f.pdf", [⟨"alpha beta gamma delta", "alpha beta gamma delta", 1⟩]⟩ ∧
    ∀ s ∈ (extract_text_with_structure
        (.ok ⟨[⟨[10, 10, 10],
          .ok [⟨"alpha beta gamma delta", [⟨"Arial", 10⟩]⟩,
               ⟨"Heading One Two Three", [⟨"Arial-Bold", 20⟩]⟩]⟩,
          ⟨[], .error "boom"⟩]⟩) "f.pdf").sections,
      s.content ≠ "boom" := by
  refine ⟨by decide, by decide⟩

/-- C9 (amended): an open failure, or a page failure with no sections
captured yet, degrades to a single placeholder section carrying the error
message; a page failure after sections were captured keeps exactly those
sections (and no placeholder); a document with no pages yields zero
sections, not an error. -/
theorem C9_failure_semantics (pdf : PdfDoc) (file_path e : String) :
    (extract_text_with_structure (.error e) file_path =
      ⟨pyBasename file_path,
        [⟨"Error processing " ++ pyBasename file_path, e, 1⟩]⟩) ∧
    (pdf.pages = [] →
      extract_text_with_structure (.ok pdf) file_path = ⟨pyBasename file_path, []⟩) ∧
    (∀ (p0 : PageData) (ps : List PageData) (st : SegState),
      pdf.pages = p0 :: ps →
      runPages (medianFontSize p0.wordSizes * 1.15) pdf.pages 1 ⟨none, "", 1, []⟩ =
        (st, some e) →
      (extract_text_with_structure (.ok pdf) file_path).sections =
        (if st.sections = [] then [⟨"Error processing " ++ pyBasename file_path, e, 1⟩]
         else st.sections)) := by
  refine ⟨rfl, ?_, ?_⟩
  · intro hp
    cases pdf with
    | mk pages =>
      simp only at hp
      subst hp
      rfl
  · intro p0 ps st hp hrun
    cases pdf with
    | mk pages =>
      simp only at hp
      subst hp
      simp only at hrun
      unfold extract_text_with_structure
      dsimp only
      rw [hrun]

/-- Closed witness for `C9_failure_semantics`: a failure on the very first
page yields exactly the placeholder section. -/
theorem C9_failure_semantics_witness :
    (extract_text_with_structure (.error "open failed") "a/b.pdf" =
      ⟨pyBasename "a/b.pdf",
        [⟨"Error processing " ++ pyBasename "a/b.pdf", "open failed", 1⟩]⟩) ∧
    ((⟨[⟨[], .error "open failed"⟩]⟩ : PdfDoc).pages = [] →
      extract_text_with_structure (.ok ⟨[⟨[], .error "open failed"⟩]⟩) "a/b.pdf" =
        ⟨pyBasename "a/b.pdf", []⟩) ∧
    (∀ (p0 : PageData) (ps : List PageData) (st : SegState),
      (⟨[⟨[], .error "open failed"⟩]⟩ : PdfDoc).pages = p0 :: ps →
      runPages (medianFontSize p0.wordSizes * 1.15)
          (⟨[⟨[], .error "open failed"⟩]⟩ : PdfDoc).pages 1 ⟨none, "", 1, []⟩ =
        (st, some "open failed") →
      (extract_text_with_structure (.ok ⟨[⟨[], .error "open failed"⟩]⟩)
          "a/b.pdf").sections =
        (if st.sections = [] then
          [⟨"Error processing " ++ pyBasename "a/b.pdf", "open failed", 1⟩]
         else st.sections)) :=
  C9_failure_semantics ⟨[⟨[], .error "open failed"⟩]⟩ "a/b.pdf" "open failed"

/-! ### Sub-section Refiner (`SubsectionAnalyzer.analyze_subsections`).
`sent_tokenize` (nltk) is an abstract tokenizer parameter; `np.argmax` is
modelled by its documented semantics: the first index of the maximum. -/

/-- A refined excerpt: `{"document", "refined_text", "page_number"}`. -/
structure SubOut where
  document : String
  refined_text : String
  page_number : ℕ
deriving DecidableEq, Repr

/-- The maximum of a non-empty list of rationals (`0` for `[]`). -/
def listMaxQ : List ℚ → ℚ
  | [] => 0
  | x :: xs => xs.foldl max x

/-- `np.argmax`: the first index at which the maximum occurs. -/
def npArgmax (l : List ℚ) : ℕ := l.indexOf (listMaxQ l)

/-- The usable sentences: stripped sentences of the content with strictly
more than 4 words. -/
def usableSents (tokenize : String → List String) (content : String) : List String :=
  (tokenize content).filterMap fun s =>
    if 4 < (pyWords (pyStrip s)).length then some (pyStrip s) else none

/-- The per-section body of the refiner loop: verbatim content when fewer
than 3 usable sentences remain, otherwise the context window
`[best-1, best+2)` around the best-scoring sentence, joined by spaces. -/
def refineSection (sim : Emb → Emb → ℚ) (encode : String → Emb)
    (tokenize : String → List String) (req_emb : Emb) (sec : Candidate) : SubOut :=
  let sents := usableSents tokenize sec.content
  let refined_text :=
    if sents.length < 3 then sec.content
    else
      let sim_scores := sents.map fun s => sim (encode s) req_emb
      let best_sent_idx := npArgmax sim_scores
      let start_idx := best_sent_idx - 1
      let end_idx := min sents.length (best_sent_idx + 2)
      pyJoin " " ((sents.drop start_idx).take (end_idx - start_idx))
  ⟨sec.document, refined_text, sec.page_number⟩

/-- `SubsectionAnalyzer.analyze_subsections`. -/
def analyze_subsections (sim : Emb → Emb → ℚ) (encode : String → Emb)
    (tokenize : String → List String) (req_emb : Emb)
    (sections : List Candidate) : List SubOut :=
  if sections = [] then []
  else sections.map (refineSection sim encode tokenize req_emb)

theorem foldl_max_seed_le (xs : List ℚ) : ∀ x : ℚ, x ≤ xs.foldl max x := by
  induction xs with
  | nil => intro x; simp
  | cons y ys ih =>
    intro x
    calc x ≤ max x y := le_max_left x y
      _ ≤ (y :: ys).foldl max x := by simpa using ih (max x y)

theorem foldl_max_mem_le (xs : List ℚ) :
    ∀ (x : ℚ) (a : ℚ), a ∈ xs → a ≤ xs.foldl max x := by
  induction xs with
  | nil => intro x a ha; exact absurd ha (List.not_mem_nil a)
  | cons y ys ih =>
    intro x a ha
    rcases List.mem_cons.mp ha with rfl | ha'
    · calc a ≤ max x a := le_max_right x a
        _ ≤ (a :: ys).foldl max x := by simpa using foldl_max_seed_le ys (max x a)
    · simpa using ih (max x y) a ha'

theorem foldl_max_mem (xs : List ℚ) :
    ∀ x : ℚ, xs.foldl max x = x ∨ xs.foldl max x ∈ xs := by
  induction xs with
  | nil => intro x; exact Or.inl rfl
  | cons y ys ih =>
    intro x
    rcases ih (max x y) with h | h
    · rcases max_choice x y with hm | hm
      · left; simpa [hm] using h
      · right; simp only [List.foldl_cons]
        rw [h, hm]; exact List.mem_cons_self y ys
    · right
      simp only [List.foldl_cons]
      exact List.mem_cons_of_mem y h

theorem listMaxQ_mem {l : List ℚ} (h : l ≠ []) : listMaxQ l ∈ l := by
  cases l with
  | nil => exact absurd rfl h
  | cons x xs =>
    show xs.foldl max x ∈ x :: xs
    rcases foldl_max_mem xs x with h' | h'
    · rw [h']; exact List.mem_cons_self x xs
    · exact List.mem_cons_of_mem x h'

theorem le_listMaxQ {l : List ℚ} {a : ℚ} (ha : a ∈ l) : a ≤ listMaxQ l := by
  cases l with
  | nil => exact absurd ha (List.not_mem_nil a)
  | cons x xs =>
    show a ≤ xs.foldl max x
    rcases List.mem_cons.mp ha with rfl | ha'
    · exact foldl_max_seed_le xs a
    · exact foldl_max_mem_le xs x a ha'

theorem npArgmax_lt_length {l : List ℚ} (h : l ≠ []) : npArgmax l < l.length :=
  List.indexOf_lt_length.mpr (listMaxQ_mem h)

theorem getD_npArgmax {l : List ℚ} (h : l ≠ []) :
    l.getD (npArgmax l) 0 = listMaxQ l := by
  rw [List.getD_eq_getElem l 0 (npArgmax_lt_length h)]
  exact List.getElem_indexOf (List.indexOf_lt_length.mpr (listMaxQ_mem h))

/-- C7: the refiner keeps only sentences with more than 4 words; with fewer
than 3 usable sentences the refined text is the content verbatim; otherwise
it is the space-join of the sentences with indices in
`[max(0, i-1), min(n, i+2))`, where `i` is the (first) index of maximal
similarity to the query embedding. -/
theorem C7_context_window (sim : Emb → Emb → ℚ) (encode : String → Emb)
    (tokenize : String → List String) (req_emb : Emb) (sec : Candidate) :
    let sents := usableSents tokenize sec.content
    let scores := sents.map fun s => sim (encode s) req_emb
    let i := npArgmax scores
    let window := (sents.drop (i - 1)).take (min sents.length (i + 2) - (i - 1))
    (∀ t ∈ sents, 4 < (pyWords t).length) ∧
    (sents.length < 3 →
      (refineSection sim encode tokenize req_emb sec).refined_text = sec.content) ∧
    (3 ≤ sents.length →
      (refineSection sim encode tokenize req_emb sec).refined_text = pyJoin " " window ∧
      i < sents.length ∧
      (∀ j < sents.length, scores.getD j 0 ≤ scores.getD i 0) ∧
      window.length = min sents.length (i + 2) - (i - 1) ∧
      (∀ m < window.length, window[m]? = sents[(i - 1) + m]?)) := by
  intro sents scores i window
  have hlensc : scores.length = sents.length := List.length_map sents _
  refine ⟨?_, ?_, ?_⟩
  · intro t ht
    rcases List.mem_filterMap.mp ht with ⟨s, -, hsome⟩
    by_cases hc : 4 < (pyWords (pyStrip s)).length
    · rw [if_pos hc] at hsome
      injection hsome with hsome
      subst hsome; exact hc
    · rw [if_neg hc] at hsome; exact absurd hsome (by simp)
  · intro hlt
    unfold refineSection
    simp only [if_pos hlt]
  · intro hge
    have hne : sents ≠ [] := by
      intro h; rw [h] at hge; simp at hge
    have hscne : scores ≠ [] := by
      intro h
      have hz : scores.length = 0 := by rw [h]; rfl
      rw [hlensc] at hz
      omega
    have hlt3 : ¬ sents.length < 3 := not_lt.mpr hge
    have hi : i < sents.length := hlensc ▸ npArgmax_lt_length hscne
    refine ⟨?_, hi, ?_, ?_, ?_⟩
    · unfold refineSection
      simp only [if_neg hlt3]
    · intro j hj
      have hj' : j < scores.length := hlensc ▸ hj
      have hmem : scores.getD j 0 ∈ scores := by
        rw [List.getD_eq_getElem scores 0 hj']
        exact scores.getElem_mem hj'
      calc scores.getD j 0 ≤ listMaxQ scores := le_listMaxQ hmem
        _ = scores.getD i 0 := (getD_npArgmax hscne).symm
    · rw [List.length_take, List.length_drop]
      omega
    · intro m hm
      rw [List.length_take, List.length_drop] at hm
      rw [List.getElem?_take, if_pos (by omega), List.getElem?_drop]

/-- Closed witness for `C7_context_window` on a concrete three-sentence
section. -/
theorem C7_context_window_witness :
    ((usableSents (fun c => c.splitOn "|") "u v w x y|k l m n o p|a b c d e f").length < 3 →
      (refineSection simW encodeW (fun c => c.splitOn "|") [1]
        ⟨"T", "u v w x y|k l m n o p|a b c d e f", 1, "doc", 0⟩).refined_text =
        "u v w x y|k l m n o p|a b c d e f") ∧
    (3 ≤ (usableSents (fun c => c.splitOn "|") "u v w x y|k l m n o p|a b c d e f").length →
      (refineSection simW encodeW (fun c => c.splitOn "|") [1]
        ⟨"T", "u v w x y|k l m n o p|a b c d e f", 1, "doc", 0⟩).refined_text =
        pyJoin " "
          ((let sents := usableSents (fun c => c.splitOn "|")
              "u v w x y|k l m n o p|a b c d e f"
            let scores := sents.map fun s => simW (encodeW s) [1]
            let i := npArgmax scores
            (sents.drop (i - 1)).take (min sents.length (i + 2) - (i - 1))))) :=
  ⟨((C7_context_window simW encodeW (fun c => c.splitOn "|") [1]
      ⟨"T", "u v w x y|k l m n o p|a b c d e f", 1, "doc", 0⟩).2.1),
   fun h => ((C7_context_window simW encodeW (fun c => c.splitOn "|") [1]
      ⟨"T", "u v w x y|k l m n o p|a b c d e f", 1, "doc", 0⟩).2.2 h).1⟩

/-! ### Pipeline Orchestrator (`main.py`, `process_pdfs_with_ml`).
`encode` may fail per call (a raised exception is `none`); the database
retrieval and the model-readiness gate are folded into the empty-input error
case; wall-clock metadata fields are omitted. -/

/-- A cached section as returned by `PDF.get_sections_with_embeddings()`
(an absent embedding is the empty list). -/
structure CSec where
  section_title : String
  content : String
  page_number : ℕ
  section_index : ℕ
  embedding : Emb
deriving DecidableEq, Repr

/-- An extracted, not-yet-embedded section (`extract_sections_from_pdf`). -/
structure ESec where
  section_title : String
  content : String
  page_number : ℕ
  section_index : ℕ
  section_text : String
deriving DecidableEq, Repr

/-- An extracted section with its embedding attached. -/
structure MSec where
  section_title : String
  content : String
  page_number : ℕ
  section_index : ℕ
  section_text : String
  embedding : Emb
deriving DecidableEq, Repr

/-- A section of `all_sections`: tagged with `source_pdf` and `pdf_id`. -/
structure PSec where
  section_title : String
  content : String
  page_number : ℕ
  section_index : ℕ
  embedding : Emb
  source_pdf : String
  pdf_id : ℕ
deriving DecidableEq, Repr

/-- A PDF database record: its stored sections (the cache) and its raw file
data, modelled as the section list that segmentation of that file yields
(`none` when the file data is missing). -/
structure PdfRec where
  id : ℕ
  original_filename : String
  cached : List CSec
  file_data : Option (List RawSection)
deriving DecidableEq, Repr

/-- `extract_sections_from_pdf`: keep the sections whose
`"{title}. {content[:500]}"` has at least 10 words, remembering each kept
section's index in the segmenter's output. -/
def extract_sections_from_pdf (secs : List RawSection) : List ESec :=
  secs.enum.filterMap fun p =>
    let section_text := p.2.section_title ++ ". " ++ pyTake p.2.content 500
    if 10 ≤ (pyWords section_text).length then
      some ⟨p.2.section_title, p.2.content, p.2.page_number, p.1, section_text⟩
    else none

/-- One step of `generate_embeddings_for_sections`: a raised exception
(`encode = none`) degrades to the empty embedding. -/
def embedSection (encode : String → Option Emb) (s : ESec) : MSec :=
  ⟨s.section_title, s.content, s.page_number, s.section_index, s.section_text,
    (encode s.section_text).getD []⟩

/-- `generate_embeddings_for_sections`. -/
def generate_embeddings_for_sections (encode : String → Option Emb)
    (l : List ESec) : List MSec :=
  l.map (embedSection encode)

/-- `save_embeddings_to_db`: clear the old sections and store the new ones,
re-enumerated (`for idx, section_data in enumerate(sections_data)`). -/
def save_embeddings_to_db (l : List MSec) : List CSec :=
  l.enum.map fun p =>
    ⟨p.2.section_title, p.2.content, p.2.page_number, p.1, p.2.embedding⟩

/-- The cache-reuse guard:
`existing_sections and all(section.get('embedding') for section in existing_sections)`. -/
def usesCache (pdf : PdfRec) : Bool :=
  !pdf.cached.isEmpty && pdf.cached.all fun s => !s.embedding.isEmpty

/-- Tagging a cached section with `source_pdf` and `pdf_id`. -/
def tagCached (pdf : PdfRec) (s : CSec) : PSec :=
  ⟨s.section_title, s.content, s.page_number, s.section_index, s.embedding,
    pdf.original_filename, pdf.id⟩

/-- Tagging a freshly embedded section with `source_pdf` and `pdf_id`. -/
def tagFresh (pdf : PdfRec) (s : MSec) : PSec :=
  ⟨s.section_title, s.content, s.page_number, s.section_index, s.embedding,
    pdf.original_filename, pdf.id⟩

/-- The per-PDF body of the processing loop: reuse the cache when it is
non-empty and fully embedded; otherwise re-segment, re-embed, and save; a
PDF with no file data contributes nothing (`continue`). Returns the
sections contributed to `all_sections` and the updated database record. -/
def processOnePdf (encode : String → Option Emb) (pdf : PdfRec) :
    List PSec × PdfRec :=
  if usesCache pdf then (pdf.cached.map (tagCached pdf), pdf)
  else
    match pdf.file_data with
    | none => ([], pdf)
    | some raw =>
      let sections := extract_sections_from_pdf raw
      let sections_with_embeddings := generate_embeddings_for_sections encode sections
      let saved := save_embeddings_to_db sections_with_embeddings
      (sections_with_embeddings.map (tagFresh pdf), { pdf with cached := saved })

/-- The processing loop over all PDFs: `all_sections` plus the updated
records. -/
def pipelineStep (encode : String → Option Emb) (pdfs : List PdfRec) :
    List PSec × List PdfRec :=
  let step := pdfs.map (processOnePdf encode)
  (step.flatMap Prod.fst, step.map Prod.snd)

/-- `relevance_score`: cosine similarity against the query for a section
with a non-empty embedding, `0.0` otherwise. -/
def relevanceOf (sim : Emb → Emb → ℚ) (q : Emb) (s : PSec) : ℚ :=
  if s.embedding ≠ [] then sim s.embedding q else 0

/-- Attach the relevance score to every section. -/
def scoreSections (sim : Emb → Emb → ℚ) (q : Emb) (l : List PSec) :
    List (PSec × ℚ) :=
  l.map fun s => (s, relevanceOf sim q s)

/-- `sorted(all_sections, key=lambda x: x["relevance_score"], reverse=True)[:k]`
(stable sort modelled by insertion sort, see `sortByScoreDesc`). -/
def topK (scored : List (PSec × ℚ)) (k : ℕ) : List (PSec × ℚ) :=
  (scored.insertionSort fun a b => b.2 ≤ a.2).take k

/-- An insight card as assembled for the frontend. -/
structure InsightCard where
  id : String
  pdfName : String
  sectionTitle : String
  content : String
  pageNumber : ℕ
  importanceRank : ℕ
  relevanceScore : ℚ
deriving DecidableEq, Repr

/-- One insight card: id `insight-{pdf_id}-{section_index}`, content
truncated to 300 characters with an ellipsis, 1-based rank. -/
def mkInsightCard (rank : ℕ) (p : PSec × ℚ) : InsightCard :=
  ⟨"insight-" ++ toString p.1.pdf_id ++ "-" ++ toString p.1.section_index,
   p.1.source_pdf, p.1.section_title,
   if 300 < p.1.content.length then pyTake p.1.content 300 ++ "..." else p.1.content,
   p.1.page_number, rank + 1, p.2⟩

/-- `insight_cards` from `enumerate(top_sections)`. -/
def insightCards (top : List (PSec × ℚ)) : List InsightCard :=
  top.enum.map fun p => mkInsightCard p.1 p.2

/-- The structured success payload (wall-clock metadata omitted). -/
structure Insights where
  sections : List InsightCard
  job_to_be_done : String
  input_documents : List String
  total_sections_processed : ℕ
  top_insights_returned : ℕ
deriving DecidableEq, Repr

/-- `process_pdfs_with_ml`: the boundary returns either the insights payload
or an `{"error": ...}` shape, here `Except.error`. The query text is
`parse_job_to_be_done`'s `f"Task: {job_to_be_done}"`. -/
def process_pdfs_with_ml (encode : String → Option Emb) (sim : Emb → Emb → ℚ)
    (job_to_be_done : String) (pdfs : List PdfRec) (k : ℕ) :
    Except String Insights :=
  if pdfs = [] then .error "Processing failed: No PDFs found"
  else
    let all_sections := (pipelineStep encode pdfs).1
    if all_sections = [] then .error "No sections found in the provided PDFs"
    else
      match encode ("Task: " ++ job_to_be_done) with
      | none => .error "Processing failed: embedding model error"
      | some query_embedding =>
        let scored := scoreSections sim query_embedding all_sections
        let top_sections := topK scored k
        let cards := insightCards top_sections
        .ok ⟨cards, job_to_be_done, pdfs.map (·.original_filename),
          all_sections.length, cards.length⟩

/-- C3, counterexample: a single-document corpus whose only section has
fewer than 10 words. After filtering, zero candidates remain, and
`process_pdfs_with_ml` returns the error shape
`{"error": "No sections found in the provided PDFs"}`, not a structured
empty result. -/
theorem C3_counterexample :
    process_pdfs_with_ml (fun _ => some [1]) (fun _ _ => 0) "find things"
        [⟨1, "doc.pdf", [], some [⟨"T", "a b", 1⟩]⟩] 5 =
      .error "No sections found in the provided PDFs" := by
  rfl

/-- C3 (amended): when zero candidates survive filtering across all
documents, the section ranker `get_sections_with_content` returns the empty
list, but the pipeline boundary `process_pdfs_with_ml` returns the error
shape `{"error": "No sections found in the provided PDFs"}` rather than a
structured empty-results payload. -/
theorem C3_empty_corpus (encode : String → Option Emb) (sim : Emb → Emb → ℚ)
    (job : String) (pdfs : List PdfRec) (k : ℕ)
    (simR : Emb → Emb → ℚ) (encodeR : String → Emb) (req : QueryReq)
    (themes : List (String × ℚ)) (docs : List PDoc) (kR : ℕ)
    (hne : pdfs ≠ []) (hempty : (pipelineStep encode pdfs).1 = [])
    (hcand : buildCandidates simR encodeR req (themeEmbsOf encodeR themes) themes docs = []) :
    process_pdfs_with_ml encode sim job pdfs k =
      .error "No sections found in the provided PDFs" ∧
    get_sections_with_content simR encodeR req themes docs kR = [] := by
  constructor
  · unfold process_pdfs_with_ml
    rw [if_neg hne]
    simp [hempty]
  · unfold get_sections_with_content
    simp [hcand]

/-- Closed witness for `C3_empty_corpus`: a one-PDF corpus whose sections
are all shorter than 10 words, and a ranker input with one ".pdf"-titled
section. -/
theorem C3_empty_corpus_witness :
    process_pdfs_with_ml (fun _ => some [1]) (fun _ _ => 0) "study"
        [⟨1, "doc.pdf", [], some [⟨"T", "a b", 1⟩]⟩] 5 =
      .error "No sections found in the provided PDFs" ∧
    get_sections_with_content simW encodeW ⟨"Task: study", [1]⟩ []
        [⟨"doc", [⟨"x.pdf", "w1 w2 w3 w4 w5 w6 w7 w8 w9 w10", 1⟩]⟩] 5 = [] :=
  C3_empty_corpus (fun _ => some [1]) (fun _ _ => 0) "study"
    [⟨1, "doc.pdf", [], some [⟨"T", "a b", 1⟩]⟩] 5
    simW encodeW ⟨"Task: study", [1]⟩ []
    [⟨"doc", [⟨"x.pdf", "w1 w2 w3 w4 w5 w6 w7 w8 w9 w10", 1⟩]⟩] 5
    (by decide) (by decide) (by decide)

/-- C10: a per-section embedding failure sets that section's embedding to
the empty list without aborting the request; a section with an empty
embedding is scored `relevance_score = 0.0` and still participates in the
sort input; and as long as some section survived filtering and the query
embedding succeeds, the boundary returns the success payload, never the
error shape, regardless of per-section failures. -/
theorem C10_embedding_failure_degrades (encode : String → Option Emb)
    (sim : Emb → Emb → ℚ) (job : String) (pdfs : List PdfRec) (k : ℕ)
    (q : Emb) (s : ESec) (ps : PSec) :
    (encode s.section_text = none → (embedSection encode s).embedding = []) ∧
    (pdfs ≠ [] → (pipelineStep encode pdfs).1 ≠ [] →
      encode ("Task: " ++ job) = some q →
      process_pdfs_with_ml encode sim job pdfs k =
        .ok ⟨insightCards (topK (scoreSections sim q (pipelineStep encode pdfs).1) k),
          job, pdfs.map (·.original_filename), (pipelineStep encode pdfs).1.length,
          (insightCards (topK (scoreSections sim q (pipelineStep encode pdfs).1) k)).length⟩) ∧
    (ps ∈ (pipelineStep encode pdfs).1 → ps.embedding = [] →
      relevanceOf sim q ps = 0 ∧
      (ps, 0) ∈ scoreSections sim q (pipelineStep encode pdfs).1) := by
  refine ⟨?_, ?_, ?_⟩
  · intro h
    unfold embedSection
    rw [h]
    rfl
  · intro hne hsec hq
    unfold process_pdfs_with_ml
    rw [if_neg hne]
    simp only [if_neg hsec, hq]
  · intro hmem hemb
    have hrel : relevanceOf sim q ps = 0 := by
      unfold relevanceOf
      rw [if_neg (by simp [hemb])]
    refine ⟨hrel, ?_⟩
    have := List.mem_map_of_mem (fun s => (s, relevanceOf sim q s)) hmem
    simpa [scoreSections, hrel] using this

/-- Closed witness for `C10_embedding_failure_degrades`: the only section's
embedding call fails, yet the boundary returns the success payload and the
section is scored `0.0`. -/
theorem C10_embedding_failure_degrades_witness :
    process_pdfs_with_ml
        (fun t => if t = "Task: j" then some [1] else none) (fun _ _ => 1) "j"
        [⟨1, "d.pdf", [], some [⟨"T", "w1 w2 w3 w4 w5 w6 w7 w8 w9", 1⟩]⟩] 5 =
      .ok ⟨insightCards (topK (scoreSections (fun _ _ => 1) [1]
            (pipelineStep (fun t => if t = "Task: j" then some [1] else none)
              [⟨1, "d.pdf", [], some [⟨"T", "w1 w2 w3 w4 w5 w6 w7 w8 w9", 1⟩]⟩]).1) 5),
        "j", ["d.pdf"],
        (pipelineStep (fun t => if t = "Task: j" then some [1] else none)
          [⟨1, "d.pdf", [], some [⟨"T", "w1 w2 w3 w4 w5 w6 w7 w8 w9", 1⟩]⟩]).1.length,
        (insightCards (topK (scoreSections (fun _ _ => 1) [1]
            (pipelineStep (fun t => if t = "Task: j" then some [1] else none)
              [⟨1, "d.pdf", [], some [⟨"T", "w1 w2 w3 w4 w5 w6 w7 w8 w9", 1⟩]⟩]).1) 5)).length⟩ :=
  ((C10_embedding_failure_degrades
      (fun t => if t = "Task: j" then some [1] else none) (fun _ _ => 1) "j"
      [⟨1, "d.pdf", [], some [⟨"T", "w1 w2 w3 w4 w5 w6 w7 w8 w9", 1⟩]⟩] 5 [1]
      ⟨"T", "w1 w2 w3 w4 w5 w6 w7 w8 w9", 1, 0,
        "T. w1 w2 w3 w4 w5 w6 w7 w8 w9"⟩
      ⟨"T", "w1 w2 w3 w4 w5 w6 w7 w8 w9", 1, 0, [], "d.pdf", 1⟩).2.1)
    (by decide) (by decide) (by decide)

/-! ### Cache reuse and idempotent reprocessing (C8).
`save_embeddings_to_db` re-enumerates `section_index`, so a re-run is
compared after stripping that index. -/

/-- A processed section minus its (re-enumerated) `section_index`. -/
def stripIdx (s : PSec) : String × String × ℕ × Emb × String × ℕ :=
  (s.section_title, s.content, s.page_number, s.embedding, s.source_pdf, s.pdf_id)

theorem enum_map_snd_comp {α β : Type} (l : List α) (F : α → β) :
    l.enum.map (fun p => F p.2) = l.map F := by
  calc l.enum.map (fun p => F p.2) = (l.enum.map Prod.snd).map F := by
        rw [List.map_map]; rfl
    _ = l.map F := by rw [List.enum_map_snd]

theorem processOnePdf_cache (encode : String → Option Emb) (pdf : PdfRec)
    (hc : usesCache pdf = true) :
    processOnePdf encode pdf = (pdf.cached.map (tagCached pdf), pdf) := by
  unfold processOnePdf
  rw [if_pos hc]

theorem processOnePdf_fresh (encode : String → Option Emb) (pdf : PdfRec)
    (raw : List RawSection) (hc : usesCache pdf = false)
    (hfd : pdf.file_data = some raw) :
    processOnePdf encode pdf =
      ((generate_embeddings_for_sections encode (extract_sections_from_pdf raw)).map
          (tagFresh pdf),
        { pdf with cached := save_embeddings_to_db (generate_embeddings_for_sections encode (extract_sections_from_pdf raw)) }) := by
  unfold processOnePdf
  rw [if_neg (by simp [hc]), hfd]

/-- Re-processing a record right after processing it contributes the same
sections, up to the re-enumerated `section_index`. -/
theorem processOnePdf_repeat (encode : String → Option Emb) (pdf : PdfRec) :
    ((processOnePdf encode (processOnePdf encode pdf).2).1).map stripIdx =
      ((processOnePdf encode pdf).1).map stripIdx := by
  by_cases hc : usesCache pdf
  · rw [processOnePdf_cache encode pdf hc]
    show ((processOnePdf encode pdf).1).map stripIdx =
      (pdf.cached.map (tagCached pdf)).map stripIdx
    rw [processOnePdf_cache encode pdf hc]
  · rw [Bool.not_eq_true] at hc
    cases hfd : pdf.file_data with
    | none =>
      have h1 : processOnePdf encode pdf = ([], pdf) := by
        unfold processOnePdf
        rw [if_neg (by simp [hc]), hfd]
      rw [h1]
      show ((processOnePdf encode pdf).1).map stripIdx = ([] : List PSec).map stripIdx
      rw [h1]
    | some raw =>
      rw [processOnePdf_fresh encode pdf raw hc hfd]
      show ((processOnePdf encode
          { pdf with cached := save_embeddings_to_db (generate_embeddings_for_sections encode (extract_sections_from_pdf raw)) }).1).map stripIdx =
        ((generate_embeddings_for_sections encode (extract_sections_from_pdf raw)).map
          (tagFresh pdf)).map stripIdx
      set emb := generate_embeddings_for_sections encode (extract_sections_from_pdf raw)
        with hembdef
      set pdf2 : PdfRec := { pdf with cached := save_embeddings_to_db emb } with hpdf2
      by_cases hc2 : usesCache pdf2
      · rw [processOnePdf_cache encode pdf2 hc2]
        show ((save_embeddings_to_db emb).map (tagCached pdf2)).map stripIdx =
          (emb.map (tagFresh pdf)).map stripIdx
        unfold save_embeddings_to_db
        simp only [List.map_map]
        have hfun :
            (stripIdx ∘ tagCached pdf2 ∘ fun p : ℕ × MSec =>
              (⟨p.2.section_title, p.2.content, p.2.page_number, p.1, p.2.embedding⟩ : CSec)) =
            fun p : ℕ × MSec => (stripIdx ∘ tagFresh pdf) p.2 :=
          funext fun p => rfl
        rw [hfun]
        exact enum_map_snd_comp emb (stripIdx ∘ tagFresh pdf)
      · rw [Bool.not_eq_true] at hc2
        have hfd2 : pdf2.file_data = some raw := hfd
        rw [processOnePdf_fresh encode pdf2 raw hc2 hfd2]
        rfl

/-- Re-running the whole processing loop on the saved records contributes
the same `all_sections`, up to the re-enumerated `section_index`. -/
theorem pipelineStep_repeat (encode : String → Option Emb) (pdfs : List PdfRec) :
    ((pipelineStep encode (pipelineStep encode pdfs).2).1).map stripIdx =
      ((pipelineStep encode pdfs).1).map stripIdx := by
  unfold pipelineStep
  simp only [List.map_map, List.map_flatMap]
  induction pdfs with
  | nil => rfl
  | cons p ps ih =>
    simp only [List.map_cons, List.flatMap_cons]
    refine congrArg₂ (· ++ ·) ?_ ih
    show ((processOnePdf encode (processOnePdf encode p).2).1).map stripIdx =
      ((processOnePdf encode p).1).map stripIdx
    exact processOnePdf_repeat encode p

theorem orderedInsert_strip_congr :
    ∀ (l m : List (PSec × ℚ)) (x y : PSec × ℚ),
      (stripIdx x.1, x.2) = (stripIdx y.1, y.2) →
      l.map (fun p => (stripIdx p.1, p.2)) = m.map (fun p => (stripIdx p.1, p.2)) →
      (l.orderedInsert (fun a b => b.2 ≤ a.2) x).map (fun p => (stripIdx p.1, p.2)) =
        (m.orderedInsert (fun a b => b.2 ≤ a.2) y).map (fun p => (stripIdx p.1, p.2)) := by
  intro l
  induction l with
  | nil =>
    intro m x y hxy hlm
    cases m with
    | nil => simpa [List.orderedInsert] using hxy
    | cons b m' => exact absurd hlm.symm (by simp)
  | cons a l' ih =>
    intro m x y hxy hlm
    cases m with
    | nil => exact absurd hlm (by simp)
    | cons b m' =>
      simp only [List.map_cons, List.cons.injEq] at hlm
      obtain ⟨hab, hlm'⟩ := hlm
      have hx2 : x.2 = y.2 := (Prod.ext_iff.mp hxy).2
      have ha2 : a.2 = b.2 := (Prod.ext_iff.mp hab).2
      unfold List.orderedInsert
      by_cases hcond : a.2 ≤ x.2
      · rw [if_pos hcond, if_pos (by rw [← ha2, ← hx2]; exact hcond)]
        simp only [List.map_cons, List.cons.injEq]
        exact ⟨hxy, hab, hlm'⟩
      · rw [if_neg hcond, if_neg (by rw [← ha2, ← hx2]; exact hcond)]
        simp only [List.map_cons, List.cons.injEq]
        exact ⟨hab, ih m' x y hxy hlm'⟩

theorem insertionSort_strip_congr :
    ∀ (l m : List (PSec × ℚ)),
      l.map (fun p => (stripIdx p.1, p.2)) = m.map (fun p => (stripIdx p.1, p.2)) →
      (l.insertionSort (fun a b => b.2 ≤ a.2)).map (fun p => (stripIdx p.1, p.2)) =
        (m.insertionSort (fun a b => b.2 ≤ a.2)).map (fun p => (stripIdx p.1, p.2)) := by
  intro l
  induction l with
  | nil =>
    intro m hlm
    cases m with
    | nil => rfl
    | cons b m' => exact absurd hlm.symm (by simp)
  | cons a l' ih =>
    intro m hlm
    cases m with
    | nil => exact absurd hlm (by simp)
    | cons b m' =>
      simp only [List.map_cons, List.cons.injEq] at hlm
      obtain ⟨hab, hlm'⟩ := hlm
      simp only [List.insertionSort]
      exact orderedInsert_strip_congr _ _ a b hab (ih m' hlm')

theorem relevanceOf_strip_congr (sim : Emb → Emb → ℚ) (q : Emb) {a b : PSec}
    (h : stripIdx a = stripIdx b) : relevanceOf sim q a = relevanceOf sim q b := by
  have hemb : a.embedding = b.embedding := congrArg (fun t => t.2.2.2.1) h
  unfold relevanceOf
  rw [hemb]

theorem scoreSections_strip_congr (sim : Emb → Emb → ℚ) (q : Emb) :
    ∀ (l m : List PSec), l.map stripIdx = m.map stripIdx →
      (scoreSections sim q l).map (fun p => (stripIdx p.1, p.2)) =
        (scoreSections sim q m).map (fun p => (stripIdx p.1, p.2)) := by
  intro l
  induction l with
  | nil =>
    intro m hlm
    cases m with
    | nil => rfl
    | cons b m' => exact absurd hlm.symm (by simp)
  | cons a l' ih =>
    intro m hlm
    cases m with
    | nil => exact absurd hlm (by simp)
    | cons b m' =>
      simp only [List.map_cons, List.cons.injEq] at hlm
      obtain ⟨hab, hlm'⟩ := hlm
      unfold scoreSections
      simp only [List.map_cons, List.cons.injEq]
      refine ⟨?_, ih m' hlm'⟩
      rw [hab, relevanceOf_strip_congr sim q hab]

/-- C8: the cache is reused iff it is non-empty and every cached section
carries a non-empty embedding; a reused cache skips segmentation and all
embedding calls (the result does not depend on the embedding provider); a
partially-embedded cache triggers full re-segmentation and re-embedding;
and a re-run on the saved records yields the same sections (up to the
re-enumerated `section_index`) and hence the same relevance-score ordering
of the top-k. -/
theorem C8_cache_reuse_idempotent (encode encode' : String → Option Emb)
    (pdf : PdfRec) (pdfs : List PdfRec) (sim : Emb → Emb → ℚ) (q : Emb) (k : ℕ) :
    (usesCache pdf = true ↔
      pdf.cached ≠ [] ∧ ∀ s ∈ pdf.cached, s.embedding ≠ []) ∧
    (usesCache pdf = true →
      processOnePdf encode pdf = (pdf.cached.map (tagCached pdf), pdf) ∧
      processOnePdf encode pdf = processOnePdf encode' pdf) ∧
    (usesCache pdf = false → ∀ raw, pdf.file_data = some raw →
      processOnePdf encode pdf =
        ((generate_embeddings_for_sections encode (extract_sections_from_pdf raw)).map
            (tagFresh pdf),
          { pdf with cached := save_embeddings_to_db (generate_embeddings_for_sections encode (extract_sections_from_pdf raw)) })) ∧
    ((pipelineStep encode (pipelineStep encode pdfs).2).1.map stripIdx =
      (pipelineStep encode pdfs).1.map stripIdx) ∧
    ((topK (scoreSections sim q (pipelineStep encode (pipelineStep encode pdfs).2).1) k).map
        (fun p => (stripIdx p.1, p.2)) =
      (topK (scoreSections sim q (pipelineStep encode pdfs).1) k).map
        (fun p => (stripIdx p.1, p.2))) := by
  refine ⟨?_, ?_, ?_, pipelineStep_repeat encode pdfs, ?_⟩
  · unfold usesCache
    simp [List.isEmpty_iff, List.all_eq_true]
  · intro hc
    exact ⟨processOnePdf_cache encode pdf hc, by
      rw [processOnePdf_cache encode pdf hc, processOnePdf_cache encode' pdf hc]⟩
  · intro hc raw hfd
    exact processOnePdf_fresh encode pdf raw hc hfd
  · unfold topK
    rw [List.map_take, List.map_take]
    rw [insertionSort_strip_congr _ _
      (scoreSections_strip_congr sim q _ _ (pipelineStep_repeat encode pdfs))]

/-- Closed witness for `C8_cache_reuse_idempotent` on a record with a fully
embedded cache and one with a partially embedded cache. -/
theorem C8_cache_reuse_idempotent_witness :
    processOnePdf (fun _ => some [2]) ⟨1, "a.pdf", [⟨"T", "c", 1, 0, [5]⟩], none⟩ =
      (([⟨"T", "c", 1, 0, [5]⟩] : List CSec).map
        (tagCached ⟨1, "a.pdf", [⟨"T", "c", 1, 0, [5]⟩], none⟩),
       ⟨1, "a.pdf", [⟨"T", "c", 1, 0, [5]⟩], none⟩) ∧
    processOnePdf (fun _ => some [2]) ⟨1, "a.pdf", [⟨"T", "c", 1, 0, [5]⟩], none⟩ =
      processOnePdf (fun _ => none) ⟨1, "a.pdf", [⟨"T", "c", 1, 0, [5]⟩], none⟩ ∧
    processOnePdf (fun _ => some [2])
        ⟨2, "b.pdf", [⟨"T", "c", 1, 0, []⟩],
          some [⟨"S", "w1 w2 w3 w4 w5 w6 w7 w8 w9", 1⟩]⟩ =
      ((generate_embeddings_for_sections (fun _ => some [2])
          (extract_sections_from_pdf [⟨"S", "w1 w2 w3 w4 w5 w6 w7 w8 w9", 1⟩])).map
          (tagFresh ⟨2, "b.pdf", [⟨"T", "c", 1, 0, []⟩],
            some [⟨"S", "w1 w2 w3 w4 w5 w6 w7 w8 w9", 1⟩]⟩),
        { (⟨2, "b.pdf", [⟨"T", "c", 1, 0, []⟩],
            some [⟨"S", "w1 w2 w3 w4 w5 w6 w7 w8 w9", 1⟩]⟩ : PdfRec) with
          cached := save_embeddings_to_db (generate_embeddings_for_sections (fun _ => some [2]) (extract_sections_from_pdf [⟨"S", "w1 w2 w3 w4 w5 w6 w7 w8 w9", 1⟩])) }) :=
  ⟨((C8_cache_reuse_idempotent (fun _ => some [2]) (fun _ => none)
      ⟨1, "a.pdf", [⟨"T", "c", 1, 0, [5]⟩], none⟩ [] (fun _ _ => 0) [] 0).2.1
      (by decide)).1,
   ((C8_cache_reuse_idempotent (fun _ => some [2]) (fun _ => none)
      ⟨1, "a.pdf", [⟨"T", "c", 1, 0, [5]⟩], none⟩ [] (fun _ _ => 0) [] 0).2.1
      (by decide)).2,
   (C8_cache_reuse_idempotent (fun _ => some [2]) (fun _ => none)
      ⟨2, "b.pdf", [⟨"T", "c", 1, 0, []⟩],
        some [⟨"S", "w1 w2 w3 w4 w5 w6 w7 w8 w9", 1⟩]⟩ [] (fun _ _ => 0) [] 0).2.2.1
      (by decide) [⟨"S", "w1 w2 w3 w4 w5 w6 w7 w8 w9", 1⟩] (by decide)⟩

end Insight
